import Mathlib

/-!
Verification of the Tetris board/piece engine in `tetris.js`.

The board is a list of `BOARD_HEIGHT` rows, each a list of `BOARD_WIDTH`
cells; a cell is `true` when occupied (the JS stores a piece reference for
rendering, `null` when empty — gameplay only reads occupied/empty).
Shape matrices use `true` for the JS entry `1` and `false` for `0`.
Origins are `Int`, as in the JS arithmetic on `currentX`/`currentY`.
-/

namespace Tetris

def BOARD_WIDTH : Nat := 10

def BOARD_HEIGHT : Nat := 20

abbrev Row := List Bool

abbrev Board := List Row

abbrev Shape := List (List Bool)

/-- The seven tetromino shape matrices from `PIECES` (I, O, T, S, Z, J, L);
the `color`/`char` attributes are rendering-only and carry no engine meaning. -/
def PIECES : List Shape :=
  [[[true, true, true, true]],
   [[true, true], [true, true]],
   [[false, true, false], [true, true, true]],
   [[false, true, true], [true, true, false]],
   [[true, true, false], [false, true, true]],
   [[false, false, true], [true, true, true]],
   [[true, false, false], [true, true, true]]]

/-- `shape[row][col]`, `false` outside the matrix (JS `undefined` is falsy). -/
def shapeCell (s : Shape) (r c : Nat) : Bool := (s.getD r []).getD c false

/-- `board[y][x]` read as occupied/empty. -/
def boardCell (b : Board) (y x : Nat) : Bool := (b.getD y []).getD x false

/-- `isValidPosition(shape, x, y)`: every occupied matrix cell must map to an
absolute column in `[0, BOARD_WIDTH)` and a row `< BOARD_HEIGHT`, and a row
`>= 0` must land on an empty board cell (rows `< 0`, above the board top, are
allowed).  The JS `if (shape[row][col]) { ... }` guard is the `cond`. -/
def isValidPosition (b : Board) (s : Shape) (x y : Int) : Bool :=
  (List.range s.length).all fun row =>
    (List.range (s.getD row []).length).all fun col =>
      cond (shapeCell s row col)
        (decide (0 ≤ x + col) && decide (x + col < (BOARD_WIDTH : Int)) &&
          decide (y + row < (BOARD_HEIGHT : Int)) &&
          (decide (y + row < 0) || !boardCell b (y + row).toNat (x + col).toNat))
        true

/-- The 90° clockwise rotation from `rotatePiece`:
`rotated[col][rows - 1 - row] = shape[row][col]` over a fresh
`cols × rows` zero matrix (so `rotated[col][j] = shape[rows - 1 - j][col]`). -/
def rotateCW (s : Shape) : Shape :=
  (List.range (s.headD []).length).map fun col =>
    (List.range s.length).map fun j => shapeCell s (s.length - 1 - j) col

/-- The wall-kick offsets `[0, -1, 1, -2, 2]` tried by `rotatePiece`, in order. -/
def kickList : List Int := [0, -1, 1, -2, 2]

/-- Every orientation matrix a catalog piece can reach: the base shapes and
their first three clockwise rotations. -/
def orientationMatrices : List Shape :=
  PIECES.flatMap fun s =>
    [s, rotateCW s, rotateCW (rotateCW s), rotateCW (rotateCW (rotateCW s))]

/-- A fresh empty row, `Array(BOARD_WIDTH).fill(null)`. -/
def emptyRow : Row := List.replicate BOARD_WIDTH false

/-- `board[row].every(cell => cell !== null)`: every cell of the row occupied. -/
def isFullRow (r : Row) : Bool := r.all fun c => c

/-- The number of full rows of a board. -/
def countFull (b : Board) : Nat := (b.filter isFullRow).length

/-- The `clearLines` scan: `for (row = BOARD_HEIGHT - 1; row >= 0; row--)`;
a full row is spliced out, an empty row is unshifted onto the top, and the
same index is re-examined (`row++` before the loop's `row--`).  `r` is the
number of indices still to examine, so `r = i + 1` examines index `i` next.
The JS loop terminates because each splice removes a full row and unshifts a
non-full one; here that argument is an explicit fuel, one unit per iteration,
which `clearAuxFuel_spec` shows never runs out when
`countFull b + r ≤ fuel`.  The `i < b.length` test is always true in the JS
(the scan index stays below `BOARD_HEIGHT = board.length`); it makes the
out-of-range `getD` read harmless for arbitrary boards. -/
def clearAuxFuel : Nat → Board → Nat → Board × Nat
  | _, b, 0 => (b, 0)
  | 0, b, _ + 1 => (b, 0)
  | fuel + 1, b, i + 1 =>
    if i < b.length ∧ isFullRow (b.getD i []) = true then
      let p := clearAuxFuel fuel (emptyRow :: b.eraseIdx i) (i + 1)
      (p.1, p.2 + 1)
    else clearAuxFuel fuel b i

/-- `clearLines` restricted to the board: the cleared board and the number of
cleared rows.  Fuel `2 * BOARD_HEIGHT` covers the at most `BOARD_HEIGHT`
index decrements plus at most `countFull b ≤ BOARD_HEIGHT` re-examinations. -/
def clearLinesBoard (b : Board) : Board × Nat :=
  clearAuxFuel (2 * BOARD_HEIGHT) b BOARD_HEIGHT

/-- The points table `[0, 100, 300, 600, 1000]` from `clearLines`. -/
def pointsTable : List Nat := [0, 100, 300, 600, 1000]

/-- The module-level game state of `tetris.js`.  `shape` is
`currentPiece.shape` (the color/char of the piece object are rendering-only),
`x`/`y` are `currentX`/`currentY`, `running` is `gameRunning`.  `nextIdx` is
`nextPieceIndex`; its transient `-1` sentinel is resolved by `initGame`
taking the first random draw directly.  `gamePaused` and the interval timer
only gate input/tick delivery and are not engine state. -/
structure GameState where
  board : Board
  shape : Shape
  x : Int
  y : Int
  score : Nat
  lines : Nat
  level : Nat
  nextIdx : Fin 7
  running : Bool

/-- `clearLines()` on the state: rewrite the board; when lines were cleared,
add `points[linesCleared] * level` to the score, add the count to `lines`,
and recompute `level = floor(lines / 10) + 1`.  The JS table read
`points[linesCleared]` is defined for counts 0–4, which covers every count
reachable after a lock (`clearLines_count_le_four`). -/
def clearLinesState (s : GameState) : GameState :=
  let p := clearLinesBoard s.board
  if 0 < p.2 then
    { s with board := p.1,
             score := s.score + pointsTable.getD p.2 0 * s.level,
             lines := s.lines + p.2,
             level := (s.lines + p.2) / 10 + 1 }
  else { s with board := p.1 }

/-- `board[boardY][boardX] = currentPiece` (occupancy only). -/
def setCell (b : Board) (yy xx : Nat) : Board :=
  b.set yy ((b.getD yy []).set xx true)

/-- `lockPiece()`: write every occupied cell of the current matrix whose
absolute row is `≥ 0` into the board. -/
def lockPiece (b : Board) (s : Shape) (x y : Int) : Board :=
  (List.range s.length).foldl
    (fun b0 row =>
      (List.range (s.getD row []).length).foldl
        (fun b1 col =>
          if shapeCell s row col = true then
            if 0 ≤ y + row then setCell b1 (y + row).toNat (x + col).toNat else b1
          else b1)
        b0)
    b

/-- `PIECES[i].shape`. -/
def pieceShape (i : Fin 7) : Shape := PIECES.getD i []

/-- The spawn column `Math.floor((BOARD_WIDTH - shape[0].length) / 2)`. -/
def spawnX (i : Fin 7) : Int := ((BOARD_WIDTH : Int) - ((pieceShape i).headD []).length) / 2

/-- `spawnPiece()`: promote the pre-selected next piece, take a fresh random
next index (`newNext`), centre the piece at row 0, then validate; an invalid
spawn calls `gameOver()` (clears `gameRunning`) and never writes the board. -/
def spawnPiece (s : GameState) (newNext : Fin 7) : GameState :=
  let s1 := { s with shape := pieceShape s.nextIdx, x := spawnX s.nextIdx, y := 0,
                     nextIdx := newNext }
  if isValidPosition s.board (pieceShape s.nextIdx) (spawnX s.nextIdx) 0 then s1
  else { s1 with running := false }

/-- `movePiece(dx, dy)`: commit the translated origin only when valid. -/
def movePiece (s : GameState) (dx dy : Int) : GameState :=
  if isValidPosition s.board s.shape (s.x + dx) (s.y + dy) then
    { s with x := s.x + dx, y := s.y + dy }
  else s

/-- The wall-kick loop of `rotatePiece`: commit the rotated matrix at the
first offset that validates, else leave the state unchanged. -/
def tryKicks (s : GameState) (rotated : Shape) : List Int → GameState
  | [] => s
  | k :: ks =>
    if isValidPosition s.board rotated (s.x + k) s.y then
      { s with shape := rotated, x := s.x + k }
    else tryKicks s rotated ks

/-- `rotatePiece()`. -/
def rotatePiece (s : GameState) : GameState := tryKicks s (rotateCW s.shape) kickList

/-- The shared lock-then-clear-then-respawn sequence of `gameTick`, the
soft-drop key handler and `hardDrop`. -/
def lockClearSpawn (s : GameState) (n : Fin 7) : GameState :=
  spawnPiece (clearLinesState { s with board := lockPiece s.board s.shape s.x s.y }) n

/-- One gravity step / soft drop: `if (!movePiece(0, 1)) { lockPiece();
clearLines(); spawnPiece(); }`. -/
def softDropStep (s : GameState) (n : Fin 7) : GameState :=
  if isValidPosition s.board s.shape s.x (s.y + 1) then { s with y := s.y + 1 }
  else lockClearSpawn s n

/-- `gameTick()`: a no-op unless the game is running. -/
def gameTick (s : GameState) (n : Fin 7) : GameState :=
  if s.running then softDropStep s n else s

/-- The `hardDrop` descent `while (movePiece(0, 1)) {}`, acting on the origin
row.  The JS loop terminates because every successful downward move strictly
increases the row, which validity bounds by `BOARD_HEIGHT`; the fuel
`BOARD_HEIGHT` used below is shown sufficient in
`hardDrop_descent_terminates`. -/
def dropLoop : Nat → Board → Shape → Int → Int → Int
  | 0, _, _, _, y => y
  | fuel + 1, b, sh, x, y =>
    if isValidPosition b sh x (y + 1) then dropLoop fuel b sh x (y + 1) else y

/-- `hardDrop()`: drop to rest, then lock, clear and respawn. -/
def hardDropStep (s : GameState) (n : Fin 7) : GameState :=
  lockClearSpawn { s with y := dropLoop BOARD_HEIGHT s.board s.shape s.x s.y } n

/-- `initBoard()`. -/
def initBoard : Board := List.replicate BOARD_HEIGHT emptyRow

/-- `initGame()`: empty board, zero score and lines, level 1, then the first
spawn.  `i` is the first random piece index (drawn through the `-1`
sentinel), `j` the pre-selected next. -/
def initGame (i j : Fin 7) : GameState :=
  spawnPiece
    { board := initBoard, shape := [], x := 0, y := 0, score := 0, lines := 0,
      level := 1, nextIdx := i, running := true } j

/-- States reachable through the engine: a fresh game followed by any
sequence of committed commands and gravity ticks.  Input commands are only
delivered while `gameRunning` (`handleInput`); each spawn takes the fresh
random next-piece index as a parameter. -/
inductive Reach : GameState → Prop where
  | init (i j : Fin 7) : Reach (initGame i j)
  | moveLeft {s : GameState} : Reach s → s.running = true → Reach (movePiece s (-1) 0)
  | moveRight {s : GameState} : Reach s → s.running = true → Reach (movePiece s 1 0)
  | rotate {s : GameState} : Reach s → s.running = true → Reach (rotatePiece s)
  | softDrop {s : GameState} (n : Fin 7) : Reach s → s.running = true →
      Reach (softDropStep s n)
  | hardDrop {s : GameState} (n : Fin 7) : Reach s → s.running = true →
      Reach (hardDropStep s n)
  | tick {s : GameState} (n : Fin 7) : Reach s → Reach (gameTick s n)

/-- A board whose rows 5–8 are fully occupied, row 4 holds a single marker
cell, and all other rows are empty. -/
def markerRow : Row := true :: List.replicate 9 false

def exampleBoard : Board :=
  List.replicate 4 emptyRow ++ [markerRow] ++
    List.replicate 4 (List.replicate BOARD_WIDTH true) ++ List.replicate 11 emptyRow

/-- A concrete game state holding `exampleBoard`. -/
def exState : GameState :=
  { board := exampleBoard, shape := [], x := 0, y := 0, score := 0, lines := 0,
    level := 1, nextIdx := 0, running := true }

/-- A board whose top row is already fully occupied. -/
def topBoard : Board :=
  List.replicate BOARD_WIDTH true :: List.replicate 19 emptyRow

/-- A running state on `topBoard` about to spawn the O-piece (index 1). -/
def topState : GameState :=
  { board := topBoard, shape := [], x := 0, y := 0, score := 0, lines := 0,
    level := 1, nextIdx := 1, running := true }

/-- High-score persistence, `saveHighScore()`: the file is overwritten with
`score` only when `score > highScore`, where `highScore` is the in-memory
value `loadHighScore()` read when the process started (never refreshed). -/
def saveHighScore (file : Nat) (highScore score : Nat) : Nat :=
  if highScore < score then score else file

/-- One process: `loadHighScore()` once at startup, then one
`saveHighScore()` call per finished game, with the in-memory `highScore`
fixed at the loaded value throughout.  Returns the final file contents. -/
def runProcess (file : Nat) (scores : List Nat) : Nat :=
  scores.foldl (fun f sc => saveHighScore f file sc) file

/-- The engine invariants maintained across every reachable state: the active
piece is at a valid position while the game runs, `level` tracks
`floor(lines / 10) + 1`, the board keeps its `BOARD_HEIGHT` rows with no full
row left behind, and the active matrix fits in a 4 × 4 bounding box. -/
def GoodState (s : GameState) : Prop :=
  (s.running = true → isValidPosition s.board s.shape s.x s.y = true) ∧
    s.level = s.lines / 10 + 1 ∧
    s.board.length = BOARD_HEIGHT ∧
    countFull s.board = 0 ∧
    s.shape.length ≤ 4 ∧
    (s.shape.headD []).length ≤ 4

/- ---------------------------------------------------------------- theorems -/

theorem shapeCell_true_lt {s : Shape} {r c : Nat} (h : shapeCell s r c = true) :
    r < s.length ∧ c < (s.getD r []).length := by
  constructor
  · by_contra hr
    push_neg at hr
    rw [shapeCell, List.getD_eq_default _ _ hr] at h
    simp [List.getD] at h
  · by_contra hc
    push_neg at hc
    rw [shapeCell, List.getD_eq_default _ _ hc] at h
    exact absurd h (by simp)

theorem isValidPosition_true_iff (b : Board) (s : Shape) (x y : Int) :
    isValidPosition b s x y = true ↔
      ∀ r c : Nat, shapeCell s r c = true →
        (0 ≤ x + c ∧ x + c < (BOARD_WIDTH : Int) ∧ y + r < (BOARD_HEIGHT : Int) ∧
          (0 ≤ y + r → boardCell b (y + r).toNat (x + c).toNat = false)) := by
  unfold isValidPosition
  simp only [List.all_eq_true, List.mem_range]
  constructor
  · intro h r c hcell
    obtain ⟨hr, hc⟩ := shapeCell_true_lt hcell
    have hx := h r hr c hc
    rw [hcell, cond_true] at hx
    simp only [Bool.and_eq_true, Bool.or_eq_true, decide_eq_true_eq,
      Bool.not_eq_true'] at hx
    obtain ⟨⟨⟨h1, h2⟩, h3⟩, h4⟩ := hx
    refine ⟨h1, h2, h3, fun hge => ?_⟩
    rcases h4 with h4 | h4
    · omega
    · exact h4
  · intro h r _hr c _hc
    cases hcell : shapeCell s r c with
    | false => rfl
    | true =>
      rw [cond_true]
      obtain ⟨h1, h2, h3, h4⟩ := h r c hcell
      simp only [Bool.and_eq_true, Bool.or_eq_true, decide_eq_true_eq,
        Bool.not_eq_true']
      refine ⟨⟨⟨h1, h2⟩, h3⟩, ?_⟩
      by_cases hneg : y + (r : Int) < 0
      · exact Or.inl hneg
      · exact Or.inr (h4 (by omega))

/-- C1: `isValidPosition` returns `false` exactly when some occupied cell of
the matrix maps to an absolute column outside `[0, BOARD_WIDTH)`, or to a row
`≥ BOARD_HEIGHT`, or to a row `≥ 0` whose board cell is already occupied;
placements whose occupied cells all have in-range columns and rows that are
either negative or land on empty cells are accepted. -/
theorem isValidPosition_false_iff (b : Board) (s : Shape) (x y : Int) :
    isValidPosition b s x y = false ↔
      ∃ r c : Nat, shapeCell s r c = true ∧
        (x + c < 0 ∨ (BOARD_WIDTH : Int) ≤ x + c ∨ (BOARD_HEIGHT : Int) ≤ y + r ∨
          (0 ≤ y + r ∧ boardCell b (y + r).toNat (x + c).toNat = true)) := by
  rw [← Bool.not_eq_true, isValidPosition_true_iff]
  push_neg
  constructor
  · rintro ⟨r, c, hcell, hbad⟩
    refine ⟨r, c, hcell, ?_⟩
    by_cases h1 : x + (c : Int) < 0
    · exact Or.inl h1
    by_cases h2 : (BOARD_WIDTH : Int) ≤ x + c
    · exact Or.inr (Or.inl h2)
    by_cases h3 : (BOARD_HEIGHT : Int) ≤ y + r
    · exact Or.inr (Or.inr (Or.inl h3))
    obtain ⟨hge, hocc⟩ := hbad (by omega) (by omega) (by omega)
    refine Or.inr (Or.inr (Or.inr ⟨hge, ?_⟩))
    cases hb : boardCell b (y + (r : Int)).toNat (x + (c : Int)).toNat
    · exact absurd hb hocc
    · rfl
  · rintro ⟨r, c, hcell, hbad⟩
    refine ⟨r, c, hcell, ?_⟩
    intro h1 h2 h3
    rcases hbad with h | h | h | ⟨hge, hocc⟩
    · omega
    · omega
    · omega
    · exact ⟨hge, by rw [hocc]; simp⟩

/-- C6: applying the clockwise transform
`rotated[col][rows-1-row] = original[row][col]` four times in succession to
any piece orientation matrix returns exactly the original matrix (hence the
same dimensions and the same occupied cell set). -/
theorem rotate_four_times_id :
    ∀ m ∈ orientationMatrices, rotateCW (rotateCW (rotateCW (rotateCW m))) = m := by
  decide

/-- Witness for C6 at the I-piece base matrix. -/
theorem rotate_four_times_id_witness :
    rotateCW (rotateCW (rotateCW (rotateCW [[true, true, true, true]]))) =
      [[true, true, true, true]] :=
  rotate_four_times_id [[true, true, true, true]] (by decide)

theorem isFullRow_emptyRow : isFullRow emptyRow = false := by decide

theorem countFull_cons (a : Row) (l : Board) :
    countFull (a :: l) = (if isFullRow a then 1 else 0) + countFull l := by
  unfold countFull
  rw [List.filter_cons]
  split <;> simp [Nat.add_comm]

theorem getD_eraseIdx_ge {α : Type} (d : α) :
    ∀ (l : List α) (r j : Nat), r ≤ j → (l.eraseIdx r).getD j d = l.getD (j + 1) d := by
  intro l
  induction l with
  | nil => intro r j _; cases r <;> simp [List.eraseIdx, List.getD]
  | cons hd tl ih =>
    intro r j hrj
    cases r with
    | zero => simp [List.eraseIdx]
    | succ r' =>
      cases j with
      | zero => omega
      | succ j' =>
        simp only [List.eraseIdx, List.getD_cons_succ]
        exact ih r' j' (by omega)

theorem length_eraseIdx_lt {α : Type} :
    ∀ (l : List α) (r : Nat), r < l.length → (l.eraseIdx r).length = l.length - 1 := by
  intro l
  induction l with
  | nil => intro r hr; simp at hr
  | cons hd tl ih =>
    intro r hr
    cases r with
    | zero => simp [List.eraseIdx]
    | succ r' =>
      simp only [List.eraseIdx, List.length_cons]
      rw [ih r' (by simpa using hr)]
      have : r' < tl.length := by simpa using hr
      omega

theorem countFull_eraseIdx_full :
    ∀ (l : Board) (r : Nat), r < l.length → isFullRow (l.getD r []) = true →
      countFull l = countFull (l.eraseIdx r) + 1 := by
  intro l
  induction l with
  | nil => intro r hr; simp at hr
  | cons hd tl ih =>
    intro r hr hf
    cases r with
    | zero =>
      rw [List.getD_cons_zero] at hf
      simp [List.eraseIdx, countFull_cons, hf, Nat.add_comm]
    | succ r' =>
      rw [List.getD_cons_succ] at hf
      simp only [List.eraseIdx]
      rw [countFull_cons, countFull_cons, ih r' (by simpa using hr) hf]
      omega

theorem filterNot_eraseIdx_full :
    ∀ (l : Board) (r : Nat), isFullRow (l.getD r []) = true →
      (l.eraseIdx r).filter (fun row => !isFullRow row) =
        l.filter (fun row => !isFullRow row) := by
  intro l
  induction l with
  | nil => intro r _; simp [List.eraseIdx]
  | cons hd tl ih =>
    intro r hf
    cases r with
    | zero =>
      rw [List.getD_cons_zero] at hf
      simp [List.eraseIdx, List.filter_cons, hf]
    | succ r' =>
      rw [List.getD_cons_succ] at hf
      simp only [List.eraseIdx, List.filter_cons]
      rw [ih r' hf]

theorem countFull_eq_zero_of_nonfull :
    ∀ l : Board, (∀ i : Nat, i < l.length → isFullRow (l.getD i []) = false) →
      countFull l = 0 ∧ l.filter (fun row => !isFullRow row) = l := by
  intro l
  induction l with
  | nil => intro _; simp [countFull]
  | cons hd tl ih =>
    intro h
    have hhd : isFullRow hd = false := by simpa using h 0 (by simp)
    have htl := ih fun i hi => by simpa using h (i + 1) (by simpa using hi)
    constructor
    · rw [countFull_cons, hhd]
      simpa using htl.1
    · rw [List.filter_cons]
      simp [hhd, htl.2]

theorem replicate_append_cons {α : Type} (n : Nat) (a : α) (l : List α) :
    List.replicate n a ++ (a :: l) = List.replicate (n + 1) a ++ l := by
  rw [List.replicate_succ', List.append_assoc]
  rfl

/-- Adequacy of the fuelled `clearLines` scan: with enough fuel and all rows
at indices `≥ r` non-full (the loop's invariant for the part already
scanned), the scan removes exactly the full rows, prepends one empty row per
removal, keeps the remaining rows in order, and counts the removals. -/
theorem clearAuxFuel_spec :
    ∀ (fuel : Nat) (b : Board) (r : Nat), r ≤ b.length → countFull b + r ≤ fuel →
      (∀ i : Nat, r ≤ i → i < b.length → isFullRow (b.getD i []) = false) →
      clearAuxFuel fuel b r =
        (List.replicate (countFull b) emptyRow ++ b.filter (fun row => !isFullRow row),
          countFull b) := by
  intro fuel
  induction fuel with
  | zero =>
    intro b r hr hfuel hnf
    have hr0 : r = 0 := by omega
    subst hr0
    obtain ⟨hc0, hfil⟩ := countFull_eq_zero_of_nonfull b fun i hi => hnf i (by omega) hi
    simp [clearAuxFuel, hc0, hfil]
  | succ fuel ih =>
    intro b r hr hfuel hnf
    cases r with
    | zero =>
      obtain ⟨hc0, hfil⟩ := countFull_eq_zero_of_nonfull b fun i hi => hnf i (by omega) hi
      simp [clearAuxFuel, hc0, hfil]
    | succ i =>
      rw [clearAuxFuel]
      by_cases hcond : i < b.length ∧ isFullRow (b.getD i []) = true
      · rw [if_pos hcond]
        obtain ⟨hlt, hfull⟩ := hcond
        have herase : (b.eraseIdx i).length = b.length - 1 := length_eraseIdx_lt b i hlt
        have hlen2 : (emptyRow :: b.eraseIdx i).length = b.length := by
          simp [herase]; omega
        have hcf : countFull b = countFull (emptyRow :: b.eraseIdx i) + 1 := by
          rw [countFull_eraseIdx_full b i hlt hfull, countFull_cons, isFullRow_emptyRow]
          simp
        have hnf2 : ∀ j : Nat, i + 1 ≤ j → j < (emptyRow :: b.eraseIdx i).length →
            isFullRow ((emptyRow :: b.eraseIdx i).getD j []) = false := by
          intro j hge hj
          cases j with
          | zero => omega
          | succ j' =>
            rw [List.getD_cons_succ, getD_eraseIdx_ge _ _ i j' (by omega)]
            exact hnf (j' + 1) (by omega) (by rw [← hlen2]; simpa using hj)
        have hrec := ih (emptyRow :: b.eraseIdx i) (i + 1)
          (by rw [hlen2]; omega) (by omega) hnf2
        rw [hrec]
        have hfil2 : (emptyRow :: b.eraseIdx i).filter (fun row => !isFullRow row) =
            emptyRow :: b.filter (fun row => !isFullRow row) := by
          rw [List.filter_cons]
          simp only [isFullRow_emptyRow, Bool.not_false, if_pos]
          rw [filterNot_eraseIdx_full b i hfull]
        rw [hfil2, replicate_append_cons]
        rw [hcf]
      · rw [if_neg hcond]
        have hlt : i < b.length := by omega
        have hfull : isFullRow (b.getD i []) = false := by
          cases hfb : isFullRow (b.getD i [])
          · rfl
          · exact absurd ⟨hlt, hfb⟩ hcond
        refine ih b i (by omega) (by omega) ?_
        intro j hge hj
        rcases Nat.eq_or_lt_of_le hge with h | h
        · rw [← h]; exact hfull
        · exact hnf j (by omega) hj

theorem countFull_le_length (b : Board) : countFull b ≤ b.length :=
  List.length_filter_le _ _

theorem clearLinesBoard_spec (b : Board) (hb : b.length = BOARD_HEIGHT) :
    clearLinesBoard b =
      (List.replicate (countFull b) emptyRow ++ b.filter (fun row => !isFullRow row),
        countFull b) := by
  apply clearAuxFuel_spec
  · rw [hb]
  · have h := countFull_le_length b
    rw [hb] at h
    unfold BOARD_HEIGHT at h ⊢
    omega
  · intro i hge hlt
    rw [hb] at hlt
    exact absurd hlt (by omega)

/-- C2: `clearLines` removes every fully occupied row, inserts one new empty
row at the top per removed row, and preserves the relative order of the
remaining rows — multiple simultaneously full rows in one call included.  On
the board whose rows 5–8 are fully occupied and no others, it removes
exactly those 4 rows, shifts every row above down by 4, returns 4, and the
score increases by `1000 * level`. -/
theorem clearLines_removes_full_rows :
    (∀ b : Board, b.length = BOARD_HEIGHT →
        clearLinesBoard b =
          (List.replicate (countFull b) emptyRow ++ b.filter (fun row => !isFullRow row),
            countFull b)) ∧
      clearLinesBoard exampleBoard =
        (List.replicate 8 emptyRow ++ [markerRow] ++ List.replicate 11 emptyRow, 4) ∧
      (∀ s : GameState, s.board = exampleBoard →
        (clearLinesState s).score = s.score + 1000 * s.level ∧
          (clearLinesState s).lines = s.lines + 4) := by
  have hconc : clearLinesBoard exampleBoard =
      (List.replicate 8 emptyRow ++ [markerRow] ++ List.replicate 11 emptyRow, 4) := by
    decide
  refine ⟨fun b hb => clearLinesBoard_spec b hb, hconc, ?_⟩
  intro s hs
  unfold clearLinesState
  rw [hs, hconc]
  simp [pointsTable]

/-- Witness for C2 at the concrete rows-5–8 board. -/
theorem clearLines_removes_full_rows_witness :
    exampleBoard.length = BOARD_HEIGHT ∧
      clearLinesBoard exampleBoard =
        (List.replicate (countFull exampleBoard) emptyRow ++
          exampleBoard.filter (fun row => !isFullRow row), countFull exampleBoard) ∧
      (clearLinesState exState).score = exState.score + 1000 * exState.level :=
  ⟨by decide, clearLines_removes_full_rows.1 exampleBoard (by decide),
    (clearLines_removes_full_rows.2.2 exState rfl).1⟩

theorem spawnPiece_board (s : GameState) (n : Fin 7) : (spawnPiece s n).board = s.board := by
  simp only [spawnPiece]
  split <;> rfl

theorem spawnPiece_shape (s : GameState) (n : Fin 7) :
    (spawnPiece s n).shape = pieceShape s.nextIdx := by
  simp only [spawnPiece]
  split <;> rfl

theorem spawnPiece_lines_level (s : GameState) (n : Fin 7) :
    (spawnPiece s n).lines = s.lines ∧ (spawnPiece s n).level = s.level ∧
      (spawnPiece s n).score = s.score := by
  simp only [spawnPiece]
  split <;> exact ⟨rfl, rfl, rfl⟩

theorem spawnPiece_valid (s : GameState) (n : Fin 7) :
    (spawnPiece s n).running = true →
      isValidPosition (spawnPiece s n).board (spawnPiece s n).shape (spawnPiece s n).x
        (spawnPiece s n).y = true := by
  simp only [spawnPiece]
  by_cases hc : isValidPosition s.board (pieceShape s.nextIdx) (spawnX s.nextIdx) 0 = true
  · rw [if_pos hc]
    exact fun _ => hc
  · rw [if_neg hc]
    intro h
    simp at h

theorem movePiece_fields (s : GameState) (dx dy : Int) :
    (movePiece s dx dy).board = s.board ∧ (movePiece s dx dy).shape = s.shape ∧
      (movePiece s dx dy).lines = s.lines ∧ (movePiece s dx dy).level = s.level ∧
      (movePiece s dx dy).running = s.running := by
  unfold movePiece
  split <;> exact ⟨rfl, rfl, rfl, rfl, rfl⟩

theorem movePiece_valid (s : GameState) (dx dy : Int)
    (h : s.running = true → isValidPosition s.board s.shape s.x s.y = true) :
    (movePiece s dx dy).running = true →
      isValidPosition (movePiece s dx dy).board (movePiece s dx dy).shape
        (movePiece s dx dy).x (movePiece s dx dy).y = true := by
  unfold movePiece
  split
  case isTrue hc => exact fun _ => hc
  case isFalse hc => exact h

theorem tryKicks_cases (s : GameState) (rot : Shape) :
    ∀ ks : List Int, tryKicks s rot ks = s ∨
      ∃ k, isValidPosition s.board rot (s.x + k) s.y = true ∧
        tryKicks s rot ks = { s with shape := rot, x := s.x + k } := by
  intro ks
  induction ks with
  | nil => exact Or.inl rfl
  | cons k ks ih =>
    by_cases hc : isValidPosition s.board rot (s.x + k) s.y = true
    · right
      refine ⟨k, hc, ?_⟩
      simp only [tryKicks]
      rw [if_pos hc]
    · have hstep : tryKicks s rot (k :: ks) = tryKicks s rot ks := by
        simp only [tryKicks]
        rw [if_neg hc]
      rw [hstep]
      exact ih

theorem tryKicks_find (s : GameState) (rot : Shape) :
    ∀ ks : List Int,
      (∀ k : Int,
          ks.find? (fun k => isValidPosition s.board rot (s.x + k) s.y) = some k →
            tryKicks s rot ks = { s with shape := rot, x := s.x + k }) ∧
        (ks.find? (fun k => isValidPosition s.board rot (s.x + k) s.y) = none →
          tryKicks s rot ks = s) := by
  intro ks
  induction ks with
  | nil => exact ⟨fun k h => by simp at h, fun _ => rfl⟩
  | cons a ks ih =>
    constructor
    · intro k hf
      by_cases hc : isValidPosition s.board rot (s.x + a) s.y = true
      · rw [List.find?_cons_of_pos
            (p := fun k => isValidPosition s.board rot (s.x + k) s.y) _ (by simpa using hc)]
          at hf
        obtain rfl : a = k := by injection hf
        simp only [tryKicks]
        rw [if_pos hc]
      · rw [List.find?_cons_of_neg
            (p := fun k => isValidPosition s.board rot (s.x + k) s.y) _ (by simpa using hc)]
          at hf
        simp only [tryKicks]
        rw [if_neg hc]
        exact ih.1 k hf
    · intro hf
      by_cases hc : isValidPosition s.board rot (s.x + a) s.y = true
      · rw [List.find?_cons_of_pos
            (p := fun k => isValidPosition s.board rot (s.x + k) s.y) _ (by simpa using hc)]
          at hf
        simp at hf
      · rw [List.find?_cons_of_neg
            (p := fun k => isValidPosition s.board rot (s.x + k) s.y) _ (by simpa using hc)]
          at hf
        simp only [tryKicks]
        rw [if_neg hc]
        exact ih.2 hf

theorem foldl_board_invariant {P : Board → Prop} {g : Board → Nat → Board}
    (hg : ∀ b c, P b → P (g b c)) :
    ∀ (L : List Nat) (b : Board), P b → P (L.foldl g b) := by
  intro L
  induction L with
  | nil => exact fun b h => h
  | cons c cs ih => exact fun b h => ih (g b c) (hg b c h)

theorem length_setCell (b : Board) (t xx : Nat) : (setCell b t xx).length = b.length := by
  simp [setCell]

theorem length_lockPiece (b : Board) (sh : Shape) (x y : Int) :
    (lockPiece b sh x y).length = b.length := by
  unfold lockPiece
  refine foldl_board_invariant (P := fun bb => bb.length = b.length) ?_ _ _ rfl
  intro b0 row h0
  refine foldl_board_invariant (P := fun bb => bb.length = b.length) ?_ _ _ h0
  intro b1 col h1
  split
  · split
    · rw [length_setCell]
      exact h1
    · exact h1
  · exact h1

theorem foldl_set_or_id (t : Nat) (g : Board → Nat → Board)
    (hg : ∀ b c, g b c = b ∨ ∃ rr, g b c = b.set t rr) :
    ∀ (L : List Nat) (b : Board), L.foldl g b = b ∨ ∃ rr, L.foldl g b = b.set t rr := by
  intro L
  induction L with
  | nil => exact fun b => Or.inl rfl
  | cons c cs ih =>
    intro b
    rw [List.foldl_cons]
    rcases hg b c with h | ⟨rr, h⟩
    · rw [h]
      exact ih b
    · rw [h]
      rcases ih (b.set t rr) with h2 | ⟨rr2, h2⟩
      · exact Or.inr ⟨rr, h2⟩
      · rw [h2, List.set_set]
        exact Or.inr ⟨rr2, rfl⟩

theorem countFull_set_le (rr : Row) :
    ∀ (b : Board) (t : Nat), countFull (b.set t rr) ≤ countFull b + 1 := by
  intro b
  induction b with
  | nil => intro t; simp [countFull]
  | cons hd tl ih =>
    intro t
    cases t with
    | zero =>
      show countFull (rr :: tl) ≤ countFull (hd :: tl) + 1
      rw [countFull_cons, countFull_cons]
      split <;> split <;> omega
    | succ t' =>
      show countFull (hd :: tl.set t' rr) ≤ countFull (hd :: tl) + 1
      rw [countFull_cons, countFull_cons]
      have := ih t'
      split <;> omega

theorem foldl_countFull_le {g : Board → Nat → Board}
    (hg : ∀ b c, countFull (g b c) ≤ countFull b + 1) :
    ∀ (L : List Nat) (b : Board), countFull (L.foldl g b) ≤ countFull b + L.length := by
  intro L
  induction L with
  | nil => intro b; simp
  | cons c cs ih =>
    intro b
    rw [List.foldl_cons]
    have h1 := hg b c
    have h2 := ih (g b c)
    simp only [List.length_cons]
    omega

theorem countFull_lockPiece_le (b : Board) (sh : Shape) (x y : Int) :
    countFull (lockPiece b sh x y) ≤ countFull b + sh.length := by
  unfold lockPiece
  refine le_trans (foldl_countFull_le ?_ _ _) (by simp)
  intro b0 row
  have hg : ∀ (bb : Board) (col : Nat),
      (if shapeCell sh row col = true then
          if 0 ≤ y + row then setCell bb (y + row).toNat (x + col).toNat else bb
        else bb) = bb ∨
        ∃ rr, (if shapeCell sh row col = true then
            if 0 ≤ y + row then setCell bb (y + row).toNat (x + col).toNat else bb
          else bb) = bb.set (y + row).toNat rr := by
    intro bb col
    split
    · split
      · exact Or.inr ⟨_, rfl⟩
      · exact Or.inl rfl
    · exact Or.inl rfl
  rcases foldl_set_or_id ((y + row).toNat) _ hg (List.range (sh.getD row []).length) b0 with
    h | ⟨rr, h⟩
  · rw [h]
    omega
  · rw [h]
    exact countFull_set_le rr b0 ((y + row).toNat)

theorem countFull_append (a b : Board) : countFull (a ++ b) = countFull a + countFull b := by
  simp [countFull, List.filter_append]

theorem countFull_replicate_emptyRow (n : Nat) :
    countFull (List.replicate n emptyRow) = 0 := by
  induction n with
  | zero => simp [countFull]
  | succ n ih =>
    rw [List.replicate_succ, countFull_cons, isFullRow_emptyRow]
    simpa using ih

theorem countFull_filterNot (b : Board) :
    countFull (b.filter fun r => !isFullRow r) = 0 := by
  induction b with
  | nil => simp [countFull]
  | cons hd tl ih =>
    rw [List.filter_cons]
    cases h : isFullRow hd
    · simpa [h, countFull_cons] using ih
    · simpa [h] using ih

theorem filterNot_length_add (b : Board) :
    (b.filter fun r => !isFullRow r).length + countFull b = b.length := by
  induction b with
  | nil => simp [countFull]
  | cons hd tl ih =>
    rw [List.filter_cons, countFull_cons]
    cases h : isFullRow hd <;> simp [h] <;> omega

theorem clearLinesBoard_board (b : Board) (hb : b.length = BOARD_HEIGHT) :
    (clearLinesBoard b).1.length = BOARD_HEIGHT ∧ countFull (clearLinesBoard b).1 = 0 := by
  rw [clearLinesBoard_spec b hb]
  constructor
  · simp only [List.length_append, List.length_replicate]
    have h1 := filterNot_length_add b
    rw [hb] at h1
    omega
  · rw [countFull_append, countFull_replicate_emptyRow, countFull_filterNot]

theorem clearLinesState_fields (s : GameState) :
    (clearLinesState s).board = (clearLinesBoard s.board).1 ∧
      (clearLinesState s).shape = s.shape ∧ (clearLinesState s).x = s.x ∧
      (clearLinesState s).y = s.y ∧ (clearLinesState s).running = s.running ∧
      (clearLinesState s).nextIdx = s.nextIdx := by
  simp only [clearLinesState]
  split <;> exact ⟨rfl, rfl, rfl, rfl, rfl, rfl⟩

theorem clearLinesState_level (s : GameState) (h : s.level = s.lines / 10 + 1) :
    (clearLinesState s).level = (clearLinesState s).lines / 10 + 1 := by
  simp only [clearLinesState]
  split
  · rfl
  · exact h

theorem rotateCW_length (sh : Shape) : (rotateCW sh).length = (sh.headD []).length := by
  simp [rotateCW]

theorem rotateCW_head_length (sh : Shape) : ((rotateCW sh).headD []).length ≤ sh.length := by
  unfold rotateCW
  cases hc : (sh.headD []).length with
  | zero => simp
  | succ m =>
    rw [List.range_succ_eq_map]
    simp

theorem pieceShape_dims :
    ∀ i : Fin 7, (pieceShape i).length ≤ 4 ∧ ((pieceShape i).headD []).length ≤ 4 := by
  decide

theorem spawnPiece_good (s : GameState) (n : Fin 7)
    (hb : s.board.length = BOARD_HEIGHT) (hc : countFull s.board = 0)
    (hl : s.level = s.lines / 10 + 1) : GoodState (spawnPiece s n) := by
  refine ⟨spawnPiece_valid s n, ?_, ?_, ?_, ?_, ?_⟩
  · rw [(spawnPiece_lines_level s n).1, (spawnPiece_lines_level s n).2.1]
    exact hl
  · rw [spawnPiece_board]
    exact hb
  · rw [spawnPiece_board]
    exact hc
  · rw [spawnPiece_shape]
    exact (pieceShape_dims s.nextIdx).1
  · rw [spawnPiece_shape]
    exact (pieceShape_dims s.nextIdx).2

theorem movePiece_good (s : GameState) (dx dy : Int) (hg : GoodState s) :
    GoodState (movePiece s dx dy) := by
  obtain ⟨hv, hl, hb1, hb2, hs1, hs2⟩ := hg
  obtain ⟨f1, f2, f3, f4, _⟩ := movePiece_fields s dx dy
  exact ⟨movePiece_valid s dx dy hv, by rw [f3, f4]; exact hl, by rw [f1]; exact hb1,
    by rw [f1]; exact hb2, by rw [f2]; exact hs1, by rw [f2]; exact hs2⟩

theorem rotatePiece_good (s : GameState) (hg : GoodState s) :
    GoodState (rotatePiece s) := by
  obtain ⟨hv, hl, hb1, hb2, hs1, hs2⟩ := hg
  rcases tryKicks_cases s (rotateCW s.shape) kickList with h | ⟨k, hk, h⟩
  · rw [rotatePiece, h]
    exact ⟨hv, hl, hb1, hb2, hs1, hs2⟩
  · rw [rotatePiece, h]
    refine ⟨fun _ => hk, hl, hb1, hb2, ?_, ?_⟩
    · rw [rotateCW_length] at *
      exact hs2
    · exact le_trans (rotateCW_head_length s.shape) hs1

theorem lockClearSpawn_good (s : GameState) (n : Fin 7)
    (hb : s.board.length = BOARD_HEIGHT) (_hc : countFull s.board = 0)
    (hl : s.level = s.lines / 10 + 1) : GoodState (lockClearSpawn s n) := by
  unfold lockClearSpawn
  have hlock : (lockPiece s.board s.shape s.x s.y).length = BOARD_HEIGHT := by
    rw [length_lockPiece]
    exact hb
  have hres := clearLinesBoard_board (lockPiece s.board s.shape s.x s.y) hlock
  have hfld := clearLinesState_fields { s with board := lockPiece s.board s.shape s.x s.y }
  apply spawnPiece_good
  · rw [hfld.1]
    exact hres.1
  · rw [hfld.1]
    exact hres.2
  · exact clearLinesState_level _ hl

theorem softDropStep_good (s : GameState) (n : Fin 7) (hg : GoodState s) :
    GoodState (softDropStep s n) := by
  obtain ⟨hv, hl, hb1, hb2, hs1, hs2⟩ := hg
  unfold softDropStep
  split
  case isTrue hc => exact ⟨fun _ => hc, hl, hb1, hb2, hs1, hs2⟩
  case isFalse _hc => exact lockClearSpawn_good s n hb1 hb2 hl

theorem hardDropStep_good (s : GameState) (n : Fin 7) (hg : GoodState s) :
    GoodState (hardDropStep s n) := by
  obtain ⟨hv, hl, hb1, hb2, hs1, hs2⟩ := hg
  exact lockClearSpawn_good _ n hb1 hb2 hl

theorem gameTick_good (s : GameState) (n : Fin 7) (hg : GoodState s) :
    GoodState (gameTick s n) := by
  unfold gameTick
  split
  · exact softDropStep_good s n hg
  · exact hg

theorem initGame_good (i j : Fin 7) : GoodState (initGame i j) := by
  unfold initGame
  apply spawnPiece_good
  · show initBoard.length = BOARD_HEIGHT
    decide
  · show countFull initBoard = 0
    decide
  · show (1 : Nat) = 0 / 10 + 1
    decide

theorem reach_good : ∀ {s : GameState}, Reach s → GoodState s := by
  intro s h
  induction h with
  | init i j => exact initGame_good i j
  | moveLeft _ _ ih => exact movePiece_good _ _ _ ih
  | moveRight _ _ ih => exact movePiece_good _ _ _ ih
  | rotate _ _ ih => exact rotatePiece_good _ ih
  | softDrop n _ _ ih => exact softDropStep_good _ n ih
  | hardDrop n _ _ ih => exact hardDropStep_good _ n ih
  | tick n _ ih => exact gameTick_good _ n ih

/-- C3: in every reachable state while the game is running (after
initialisation and any sequence of committed moves, rotations, soft drops,
hard drops, gravity ticks, locks, line clears and respawns), the active
piece's occupied cells have columns in `[0, BOARD_WIDTH)` and rows
`< BOARD_HEIGHT`, and no cell with row `≥ 0` coincides with an occupied
board cell; rows above the board top (negative) are permitted. -/
theorem reachable_piece_valid (s : GameState) (hs : Reach s) (hr : s.running = true) :
    ∀ r c : Nat, shapeCell s.shape r c = true →
      0 ≤ s.x + c ∧ s.x + c < (BOARD_WIDTH : Int) ∧ s.y + r < (BOARD_HEIGHT : Int) ∧
        (0 ≤ s.y + r → boardCell s.board (s.y + r).toNat (s.x + c).toNat = false) :=
  (isValidPosition_true_iff s.board s.shape s.x s.y).mp ((reach_good hs).1 hr)

/-- Witness for C3 at a freshly initialised game. -/
theorem reachable_piece_valid_witness :
    (initGame 0 0).running = true ∧
      ∀ r c : Nat, shapeCell (initGame 0 0).shape r c = true →
        0 ≤ (initGame 0 0).x + c ∧ (initGame 0 0).x + c < (BOARD_WIDTH : Int) ∧
          (initGame 0 0).y + r < (BOARD_HEIGHT : Int) ∧
          (0 ≤ (initGame 0 0).y + r →
            boardCell (initGame 0 0).board ((initGame 0 0).y + r).toNat
              ((initGame 0 0).x + c).toNat = false) :=
  ⟨by decide, reachable_piece_valid (initGame 0 0) (Reach.init 0 0) (by decide)⟩

/-- C4: a rotation attempt tries the rotated matrix at horizontal kick
offsets 0, −1, +1, −2, +2 in exactly that priority order and commits the
first offset at which `isValidPosition` succeeds (updating the matrix and
shifting the origin column by that offset); if no offset succeeds the piece
keeps its original matrix and origin.  An invalid move attempt likewise
leaves the state unchanged; every engine operation is a total function, so
no rotate or out-of-bounds move attempt raises an error. -/
theorem rotate_kick_first_valid (s : GameState) (dx dy : Int) :
    (∀ k : Int,
        kickList.find? (fun k => isValidPosition s.board (rotateCW s.shape) (s.x + k) s.y) =
            some k →
          rotatePiece s = { s with shape := rotateCW s.shape, x := s.x + k }) ∧
      (kickList.find? (fun k => isValidPosition s.board (rotateCW s.shape) (s.x + k) s.y) =
          none →
        rotatePiece s = s) ∧
      (isValidPosition s.board s.shape (s.x + dx) (s.y + dy) = false →
        movePiece s dx dy = s) :=
  ⟨(tryKicks_find s (rotateCW s.shape) kickList).1,
   (tryKicks_find s (rotateCW s.shape) kickList).2,
   fun h => by unfold movePiece; rw [if_neg (by simp [h])]⟩

/-- Witness for C4: on a fresh game the first kick offset 0 is committed,
and a move 10 columns into the left wall is rejected unchanged. -/
theorem rotate_kick_first_valid_witness :
    kickList.find?
        (fun k => isValidPosition (initGame 0 0).board (rotateCW (initGame 0 0).shape)
          ((initGame 0 0).x + k) (initGame 0 0).y) = some 0 ∧
      rotatePiece (initGame 0 0) =
        { initGame 0 0 with shape := rotateCW (initGame 0 0).shape,
                            x := (initGame 0 0).x + 0 } ∧
      isValidPosition (initGame 0 0).board (initGame 0 0).shape
          ((initGame 0 0).x + -10) ((initGame 0 0).y + 0) = false ∧
      movePiece (initGame 0 0) (-10) 0 = initGame 0 0 :=
  ⟨by decide,
   (rotate_kick_first_valid (initGame 0 0) (-10) 0).1 0 (by decide),
   by decide,
   (rotate_kick_first_valid (initGame 0 0) (-10) 0).2.2 (by decide)⟩

/-- C5: when the freshly spawned piece, centred at origin column
`floor((BOARD_WIDTH - matrixWidth) / 2)` with origin row 0, is at an invalid
position, `spawnPiece` signals game over (`gameRunning` cleared) and the
board grid is left completely unmutated — the failed piece's cells are never
written into the board. -/
theorem spawn_overlap_game_over (s : GameState) (n : Fin 7)
    (h : isValidPosition s.board (pieceShape s.nextIdx) (spawnX s.nextIdx) 0 = false) :
    (spawnPiece s n).board = s.board ∧ (spawnPiece s n).running = false ∧
      (spawnPiece s n).x = spawnX s.nextIdx ∧ (spawnPiece s n).y = 0 := by
  simp only [spawnPiece]
  rw [if_neg (by simp [h])]
  exact ⟨rfl, rfl, rfl, rfl⟩

/-- Witness for C5: an O-piece spawning onto a board whose top row is full. -/
theorem spawn_overlap_game_over_witness :
    isValidPosition topState.board (pieceShape topState.nextIdx) (spawnX topState.nextIdx)
        0 = false ∧
      (spawnPiece topState 0).board = topState.board ∧
      (spawnPiece topState 0).running = false :=
  ⟨by decide, (spawn_overlap_game_over topState 0 (by decide)).1,
   (spawn_overlap_game_over topState 0 (by decide)).2.1⟩

/-- C7: from the initial state with `lines = 0` and `level = 1`, after every
engine operation `level = floor(lines / 10) + 1`; consequently, for any
sequence of clears totalling `L` lines the final level is
`floor(L / 10) + 1` regardless of how the clears were grouped. -/
theorem level_lines_invariant :
    (∀ i j : Fin 7, (initGame i j).lines = 0 ∧ (initGame i j).level = 1) ∧
      ∀ s : GameState, Reach s → s.level = s.lines / 10 + 1 :=
  ⟨fun i j =>
    ⟨by simp only [initGame]; rw [(spawnPiece_lines_level _ _).1],
     by simp only [initGame]; rw [(spawnPiece_lines_level _ _).2.1]⟩,
   fun _ hs => (reach_good hs).2.1⟩

/-- Witness for C7 at a freshly initialised game. -/
theorem level_lines_invariant_witness :
    (initGame 0 0).level = (initGame 0 0).lines / 10 + 1 :=
  level_lines_invariant.2 (initGame 0 0) (Reach.init 0 0)

/-- C9: `clearLines` returns exactly the number of full rows it removed, and
whenever it runs after a lock — on a reachable board (no full rows left by
the previous clear, `BOARD_HEIGHT` rows) into which the reachable active
matrix (at most 4 rows) was just locked — that count is between 0 and 4. -/
theorem clearLines_count_le_four (s : GameState) (hs : Reach s) :
    (clearLinesBoard (lockPiece s.board s.shape s.x s.y)).2 =
        countFull (lockPiece s.board s.shape s.x s.y) ∧
      (clearLinesBoard (lockPiece s.board s.shape s.x s.y)).2 ≤ 4 := by
  obtain ⟨-, -, hb1, hb2, hs1, -⟩ := reach_good hs
  have hlen : (lockPiece s.board s.shape s.x s.y).length = BOARD_HEIGHT := by
    rw [length_lockPiece]
    exact hb1
  rw [clearLinesBoard_spec _ hlen]
  refine ⟨rfl, ?_⟩
  have hle := countFull_lockPiece_le s.board s.shape s.x s.y
  omega

/-- Witness for C9 at a freshly initialised game. -/
theorem clearLines_count_le_four_witness :
    (clearLinesBoard (lockPiece (initGame 0 0).board (initGame 0 0).shape
      (initGame 0 0).x (initGame 0 0).y)).2 ≤ 4 :=
  (clearLines_count_le_four (initGame 0 0) (Reach.init 0 0)).2

theorem dropLoop_stuck (b : Board) (sh : Shape) (x : Int) (r c : Nat)
    (hocc : shapeCell sh r c = true) :
    ∀ (fuel : Nat) (y : Int), (BOARD_HEIGHT : Int) ≤ y + fuel →
      isValidPosition b sh x (dropLoop fuel b sh x y + 1) = false ∧
        y ≤ dropLoop fuel b sh x y := by
  intro fuel
  induction fuel with
  | zero =>
    intro y hy
    simp only [dropLoop]
    constructor
    · by_cases hv : isValidPosition b sh x (y + 1) = true
      · exfalso
        obtain ⟨-, -, h3, -⟩ := (isValidPosition_true_iff b sh x (y + 1)).mp hv r c hocc
        push_cast at hy
        omega
      · exact Bool.eq_false_iff.mpr hv
    · exact le_refl y
  | succ fuel ih =>
    intro y hy
    simp only [dropLoop]
    by_cases hv : isValidPosition b sh x (y + 1) = true
    · rw [if_pos hv]
      obtain ⟨h1, h2⟩ := ih (y + 1) (by push_cast at hy ⊢; omega)
      exact ⟨h1, le_trans (by omega) h2⟩
    · rw [if_neg hv]
      exact ⟨Bool.eq_false_iff.mpr hv, le_refl y⟩

/-- C10: from any state with the piece's origin row `≥ 0` and an occupied
cell in its matrix, the `hardDrop` descent loop terminates within
`BOARD_HEIGHT` iterations: each successful downward move strictly increases
the origin row, which `isValidPosition` bounds by `BOARD_HEIGHT`, so the
loop reaches a row at which the next downward move fails, and the piece is
then locked (hard drop = lock/clear/respawn at the rest row). -/
theorem hardDrop_descent_terminates (s : GameState) (n : Fin 7) (r c : Nat)
    (hy : 0 ≤ s.y) (hocc : shapeCell s.shape r c = true) :
    isValidPosition s.board s.shape s.x
        (dropLoop BOARD_HEIGHT s.board s.shape s.x s.y + 1) = false ∧
      s.y ≤ dropLoop BOARD_HEIGHT s.board s.shape s.x s.y ∧
      hardDropStep s n =
        lockClearSpawn { s with y := dropLoop BOARD_HEIGHT s.board s.shape s.x s.y } n := by
  have h := dropLoop_stuck s.board s.shape s.x r c hocc BOARD_HEIGHT s.y (by
    unfold BOARD_HEIGHT
    push_cast
    omega)
  exact ⟨h.1, h.2, rfl⟩

/-- Witness for C10 at a freshly initialised game, occupied cell (0, 0). -/
theorem hardDrop_descent_terminates_witness :
    0 ≤ (initGame 0 0).y ∧ shapeCell (initGame 0 0).shape 0 0 = true ∧
      isValidPosition (initGame 0 0).board (initGame 0 0).shape (initGame 0 0).x
        (dropLoop BOARD_HEIGHT (initGame 0 0).board (initGame 0 0).shape (initGame 0 0).x
          (initGame 0 0).y + 1) = false :=
  ⟨by decide, by decide,
   (hardDrop_descent_terminates (initGame 0 0) 0 0 0 (by decide) (by decide)).1⟩

/-- C8 fails on the code: `saveHighScore` compares the finished score with
the in-memory `highScore` loaded once when the process started, never with
the currently stored value.  Starting from a stored value 0, a first game
scoring 500 persists 500; after a restart in the same process a second game
scoring 100 also persists (100 exceeds the loaded 0) and overwrites the
stored 500 — the persisted value ends below the maximum ever achieved. -/
theorem highscore_regression :
    runProcess 0 [500] = 500 ∧ runProcess 0 [500, 100] = 100 := by decide

end Tetris
